import Mathlib

/-!
Shallow embedding of the `async_coroutine` crate (src/lib.rs, src/executor.rs,
src/yield_now.rs): an externally-driven coroutine built from a single-task
polling executor, a one-tick `YieldNow` future, and a pair of one-slot
mailboxes shared between the driver and the computation body.
-/

namespace AsyncCoroutine

/-- Result of polling a future (`std::task::Poll`). -/
inductive Poll (α : Type) where
  | ready (a : α)
  | pending
  deriving DecidableEq

/-- The panic conditions of the crate, identified by their source:
`doubleYield` = "multiple values were yielded without awaiting them" (lib.rs `yield_`),
`missingResumeValue` = "expected resume value" (lib.rs `yield_`),
`resumeAfterCompletion` = "`async fn` resumed after completion" (polling a
finished async-fn future, observed in `test_resumed_after_completion`),
`unwrapNone` = `self.init.take().unwrap()` on `None` (lib.rs `init_or_resume`). -/
inductive Panic where
  | doubleYield
  | missingResumeValue
  | resumeAfterCompletion
  | unwrapNone
  deriving DecidableEq

/-- The one-tick future of src/yield_now.rs: `struct YieldNow(bool)`. -/
structure YieldNow where
  fired : Bool
  deriving DecidableEq

/-- `impl Future for YieldNow { fn poll }`: if the flag is unset, set it and
report `Pending`; otherwise report `Ready(())`. -/
def YieldNow.poll : YieldNow → Poll Unit × YieldNow
  | ⟨false⟩ => (.pending, ⟨true⟩)
  | ⟨true⟩ => (.ready (), ⟨true⟩)

/-- Polling a `YieldNow` a number of times in sequence, collecting the reported
results and the final state. -/
def YieldNow.pollN : Nat → YieldNow → List (Poll Unit) × YieldNow
  | 0, yn => ([], yn)
  | n + 1, yn =>
    let p := yn.poll
    let ps := YieldNow.pollN n p.2
    (p.1 :: ps.1, ps.2)

/-- The shared mailbox pair of lib.rs `YieldHandle<Y, R>`: `value` is the yield
mailbox (`Rc<RefCell<Option<Y>>>`), `resume` the resume mailbox
(`Rc<RefCell<Option<R>>>`). Both sides alias the same cells, so the pair is the
single shared state threaded through every operation. -/
structure YieldHandle (Y R : Type) where
  value : Option Y
  resume : Option R
  deriving DecidableEq

/-- Deep embedding of a coroutine body (the async block handed to
`Coroutine::new`), as a tree of its interactions with the `YieldHandle`:
`ret t` finishes with `t`; `yield_ v k` is `let r = handle.yield_(v).await; k r`;
`discarded v rest` is `let _ = handle.yield_(v); rest` — the `yield_` future is
constructed but never polled, and Rust futures are inert until polled
(`test_yield_missing_await`), so no body code of that future runs. -/
inductive Body (Y T R : Type) where
  | ret (t : T)
  | yield_ (v : Y) (k : R → Body Y T R)
  | discarded (v : Y) (rest : Body Y T R)

/-- State of the coroutine's task future between polls: `run b` = about to
execute body code `b`; `awaitingYield yn k` = suspended inside `yield_` at the
`yield_now().await` point with `YieldNow` state `yn` and body continuation `k`;
`finished` = the async fn already returned (polling it again panics). -/
inductive FutSt (Y T R : Type) where
  | run (b : Body Y T R)
  | awaitingYield (yn : YieldNow) (k : R → Body Y T R)
  | finished

/-- Outcome of one poll of the task: ready with the final value, pending, or a
propagated panic. -/
inductive PollR (T : Type) where
  | ready (t : T)
  | pending
  | panicked (p : Panic)
  deriving DecidableEq

/-- Execute body code until it returns, panics, or suspends; this is the poll
semantics of the async block. For `yield_ v k` it follows lib.rs `yield_`:
check-and-set the yield mailbox (occupied ⇒ panic `doubleYield`, the mailbox is
left untouched), then poll a fresh `YieldNow(false)` at the `yield_now().await`
point; if it pends the whole task pends at `awaitingYield`, and if it were
ready the resume mailbox would be taken (`None` ⇒ panic `missingResumeValue`)
and the body would continue with the resume value. -/
def runBody {Y T R : Type} : Body Y T R → YieldHandle Y R → PollR T × FutSt Y T R × YieldHandle Y R
  | .ret t, h => (.ready t, .finished, h)
  | .yield_ v k, h =>
    match h.value with
    | some _ => (.panicked .doubleYield, .run (.yield_ v k), h)
    | none =>
      match YieldNow.poll ⟨false⟩ with
      | (.pending, yn) => (.pending, .awaitingYield yn k, { h with value := some v })
      | (.ready _, yn) =>
        match h.resume with
        | none => (.panicked .missingResumeValue, .awaitingYield yn k, { h with value := some v })
        | some r => runBody (k r) { value := some v, resume := none }
  | .discarded _ rest, h => runBody rest h

/-- One poll of the task future (executor.rs `Executor::poll` with the dummy
waker): `run b` executes body code; `awaitingYield` re-polls the armed
`YieldNow`, then takes the resume mailbox (`None` ⇒ panic `missingResumeValue`)
and continues the body with the resume value; a `finished` async fn panics
with "`async fn` resumed after completion". -/
def pollTask {Y T R : Type} : FutSt Y T R → YieldHandle Y R → PollR T × FutSt Y T R × YieldHandle Y R
  | .run b, h => runBody b h
  | .awaitingYield yn k, h =>
    match YieldNow.poll yn with
    | (.pending, yn') => (.pending, .awaitingYield yn' k, h)
    | (.ready _, yn') =>
      match h.resume with
      | none => (.panicked .missingResumeValue, .awaitingYield yn' k, h)
      | some r => runBody (k r) { h with resume := none }
  | .finished, h => (.panicked .resumeAfterCompletion, .finished, h)

/-- The two-variant result of a resume call (lib.rs `enum State<Y, T>`). -/
inductive State (Y T : Type) where
  | Yield (y : Y)
  | Complete (t : T)
  deriving DecidableEq

/-- Outcome of one `resume_with` call: a `State`, or a panic unwinding out of
the call. -/
inductive RunResult (Y T : Type) where
  | ok (s : State Y T)
  | panicked (p : Panic)
  deriving DecidableEq

/-- The driver loop of `Coroutine::resume_with`, with explicit fuel (the Rust
loop is unbounded; `driveLoop_fuel` below shows fuel 2 already reaches the
fixed point, so the bound is immaterial). Each iteration polls the task once:
`Ready(res)` ⇒ `Complete(res)`; a panic unwinds; on `Pending` take the yield
mailbox — a value ⇒ `Yield`, otherwise loop and re-step. -/
def driveLoop {Y T R : Type} :
    Nat → FutSt Y T R → YieldHandle Y R → Option (RunResult Y T × FutSt Y T R × YieldHandle Y R)
  | 0, _, _ => none
  | n + 1, fs, h =>
    match pollTask fs h with
    | (.ready t, fs', h') => some (.ok (.Complete t), fs', h')
    | (.panicked p, fs', h') => some (.panicked p, fs', h')
    | (.pending, fs', h') =>
      match h'.value with
      | some y => some (.ok (.Yield y), fs', { h' with value := none })
      | none => driveLoop n fs' h'

/-- lib.rs `struct ExecutorState<Y, T, R>`: the pending initializer (a one-shot
factory from the initial resume value to the body; the `YieldHandle` argument
of the Rust closure is the ambient shared state) and the optional started
executor. -/
structure ExecutorState (Y T R : Type) where
  init : Option (R → Body Y T R)
  executor : Option (FutSt Y T R)

/-- lib.rs `ExecutorState::init_or_resume`: if the executor exists, write the
resume value into the resume mailbox; otherwise take the initializer
(`unwrap`: `None` panics), apply it to the resume value and start the
executor. Returns the updated state, the updated handle, and the executor to
drive. -/
def ExecutorState.init_or_resume {Y T R : Type} (s : ExecutorState Y T R)
    (h : YieldHandle Y R) (r : R) :
    Except Panic (ExecutorState Y T R × YieldHandle Y R × FutSt Y T R) :=
  match s.executor with
  | some fs => .ok (s, { h with resume := some r }, fs)
  | none =>
    match s.init with
    | some f => .ok ({ init := none, executor := some (.run (f r)) }, h, .run (f r))
    | none => .error .unwrapNone

/-- lib.rs `struct Coroutine<Y, T, R>`: the executor state and the (driver's
reference to the) shared mailbox pair. -/
structure Coroutine (Y T R : Type) where
  executor : ExecutorState Y T R
  handle : YieldHandle Y R

/-- lib.rs `Coroutine::new`: store the initializer, no executor yet, both
mailboxes empty. -/
def Coroutine.new {Y T R : Type} (f : R → Body Y T R) : Coroutine Y T R :=
  { executor := { init := some f, executor := none }
    handle := { value := none, resume := none } }

/-- lib.rs `Coroutine::resume_with`: install the resume value (or initialize),
then run the driver loop. `none` models a drive loop that never settles (it
never occurs: see `resume_with_total`). -/
def Coroutine.resume_with {Y T R : Type} (co : Coroutine Y T R) (r : R) :
    Option (RunResult Y T × Coroutine Y T R) :=
  match co.executor.init_or_resume co.handle r with
  | .error p => some (.panicked p, co)
  | .ok (es, h, fs) =>
    match driveLoop 2 fs h with
    | none => none
    | some (out, fs', h') =>
      some (out, { executor := { es with executor := some fs' }, handle := h' })

/-- lib.rs `type Generator<Y, T> = Coroutine<Y, T, ()>`. -/
abbrev Generator (Y T : Type) := Coroutine Y T Unit

/-- lib.rs `Generator::resume`: resume with the unit value. -/
def Coroutine.resume {Y T : Type} (g : Generator Y T) :
    Option (RunResult Y T × Generator Y T) :=
  g.resume_with ()

/-- Drive a coroutine with a list of successive resume values, collecting the
outcome of each call; `none` if some call's drive loop never settles. -/
def runTrace {Y T R : Type} : Coroutine Y T R → List R → Option (List (RunResult Y T))
  | _, [] => some []
  | co, r :: rs =>
    match co.resume_with r with
    | none => none
    | some (out, co') => (runTrace co' rs).map (out :: ·)

/-- The straight-line body that yields the given values in order (ignoring the
resume values) and then returns `t`. -/
def bodyOfList {Y T R : Type} : List Y → T → Body Y T R
  | [], t => .ret t
  | y :: ys, t => .yield_ y (fun _ => bodyOfList ys t)

/-- Remove every `discarded` node from a body: the program with the
never-polled `yield_` futures deleted. -/
def eraseDiscarded {Y T R : Type} : Body Y T R → Body Y T R
  | .ret t => .ret t
  | .yield_ v k => .yield_ v (fun r => eraseDiscarded (k r))
  | .discarded _ rest => eraseDiscarded rest

/-- The coroutine state reached after a straight-line body has yielded: the
initializer is consumed, the task is suspended inside `yield_` with the rest
of the yields still to produce, and both mailboxes are empty. -/
def midCoroutine {Y T R : Type} (ys : List Y) (t : T) : Coroutine Y T R :=
  { executor := { init := none, executor := some (.awaitingYield ⟨true⟩ (fun _ => bodyOfList ys t)) }
    handle := { value := none, resume := none } }

/-- Lift `eraseDiscarded` to task-future states. -/
def eraseFutSt {Y T R : Type} : FutSt Y T R → FutSt Y T R
  | .run b => .run (eraseDiscarded b)
  | .awaitingYield yn k => .awaitingYield yn (fun r => eraseDiscarded (k r))
  | .finished => .finished

/-- Lift `eraseDiscarded` to whole coroutine states. -/
def eraseCo {Y T R : Type} : Coroutine Y T R → Coroutine Y T R
  | ⟨⟨i, ex⟩, h⟩ => ⟨⟨i.map (fun f r => eraseDiscarded (f r)), ex.map eraseFutSt⟩, h⟩

/-! Theorems. -/

/-- Polling the armed one-tick future any number of times reports ready every
time and leaves it armed. -/
theorem pollN_fired : ∀ n : Nat, YieldNow.pollN n ⟨true⟩ = (List.replicate n (.ready ()), ⟨true⟩) := by
  intro n
  induction n with
  | zero => rfl
  | succ n ih => simp [YieldNow.pollN, YieldNow.poll, List.replicate, ih]

/-- C7: polling the Suspension Signal (`YieldNow`, created unfired) reports
pending on exactly the first drive and ready on the second and every
subsequent drive, for any total number of drives. -/
theorem claim7_yield_now (n : Nat) (h : 1 ≤ n) :
    YieldNow.pollN n ⟨false⟩ = (Poll.pending :: List.replicate (n - 1) (.ready ()), ⟨true⟩) := by
  cases n with
  | zero => exact absurd h (by decide)
  | succ m => simp [YieldNow.pollN, YieldNow.poll, pollN_fired]

/-- Witness for C7 at three drives. -/
theorem claim7_witness :
    1 ≤ 3 ∧ YieldNow.pollN 3 ⟨false⟩ = (Poll.pending :: List.replicate 2 (.ready ()), ⟨true⟩) :=
  ⟨by decide, claim7_yield_now 3 (by decide)⟩

/-- C2: on the first resume the stored initializer is consumed (it becomes
`none`, so it can never run again) and applied to that call's resume value,
starting the computation, and the resume mailbox is not touched; on every
subsequent resume the executor and the initializer slot are left unchanged and
the resume value is written into the resume mailbox instead. -/
theorem claim2_init_or_resume {Y T R : Type} :
    (∀ (f : R → Body Y T R) (h : YieldHandle Y R) (r : R),
      (ExecutorState.mk (some f) none).init_or_resume h r =
        .ok (⟨none, some (.run (f r))⟩, h, .run (f r))) ∧
    (∀ (i : Option (R → Body Y T R)) (fs : FutSt Y T R) (h : YieldHandle Y R) (r : R),
      (ExecutorState.mk i (some fs)).init_or_resume h r =
        .ok (⟨i, some fs⟩, { h with resume := some r }, fs)) :=
  ⟨fun _ _ _ => rfl, fun _ _ _ _ => rfl⟩

/-- C3: driving `yield_(v)` with the yield mailbox occupied panics with
`doubleYield` and leaves the handle unchanged (`v` is not stored); with the
yield mailbox empty it stores `v`, suspends, and does not fail at that step. -/
theorem claim3_double_yield {Y T R : Type} :
    (∀ (v w : Y) (k : R → Body Y T R) (r : Option R),
      runBody (.yield_ v k) ⟨some w, r⟩ =
        (.panicked .doubleYield, .run (.yield_ v k), ⟨some w, r⟩)) ∧
    (∀ (v : Y) (k : R → Body Y T R) (r : Option R),
      runBody (.yield_ v k) ⟨none, r⟩ = (.pending, .awaitingYield ⟨true⟩ k, ⟨some v, r⟩)) :=
  ⟨fun _ _ _ _ => rfl, fun _ _ _ => rfl⟩

/-- C8: the coroutine with body
`let r = yield_(42).await; let r2 = yield_(r * 2).await; r2 + 1` returns
`Yield 42` from `resume_with (-1)`, then `Yield 142` from `resume_with 71`,
then `Complete 12` from `resume_with 11`. -/
theorem claim8_concrete_scenario :
    runTrace
      (Coroutine.new (fun _ => .yield_ 42 (fun r => .yield_ (r * 2) (fun r2 => .ret (r2 + 1)))))
      ([-1, 71, 11] : List Int) =
    some [.ok (.Yield 42), .ok (.Yield 142), .ok (.Complete 12)] := rfl

/-- One resume of a suspended straight-line body with at least one yield left:
it returns the next yield and moves to the next suspension, for any resume
value. -/
theorem resume_with_mid_cons {Y T R : Type} (y : Y) (ys : List Y) (t : T) (r : R) :
    (midCoroutine (y :: ys) t : Coroutine Y T R).resume_with r =
      some (.ok (.Yield y), midCoroutine ys t) := rfl

/-- One resume of a suspended straight-line body with no yields left: it
completes with the final value, for any resume value. -/
theorem resume_with_mid_nil {Y T R : Type} (t : T) (r : R) :
    (midCoroutine [] t : Coroutine Y T R).resume_with r =
      some (.ok (.Complete t),
        ⟨⟨none, some .finished⟩, ⟨none, none⟩⟩) := rfl

/-- The first resume of a fresh straight-line coroutine with at least one
yield: it starts the body and returns the first yield. -/
theorem resume_with_new_cons {Y T R : Type} (y : Y) (ys : List Y) (t : T) (r : R) :
    (Coroutine.new (fun _ => bodyOfList (y :: ys) t) : Coroutine Y T R).resume_with r =
      some (.ok (.Yield y), midCoroutine ys t) := rfl

/-- The first resume of a fresh straight-line coroutine with no yields: it
completes immediately. -/
theorem resume_with_new_nil {Y T R : Type} (t : T) (r : R) :
    (Coroutine.new (fun _ => bodyOfList [] t) : Coroutine Y T R).resume_with r =
      some (.ok (.Complete t),
        ⟨⟨none, some .finished⟩, ⟨none, none⟩⟩) := rfl

/-- Trace of a suspended straight-line coroutine: the remaining yields in
order, then the completion. -/
theorem runTrace_mid {Y T R : Type} (t : T) :
    ∀ (ys : List Y) (rs : List R), rs.length = ys.length + 1 →
      runTrace (midCoroutine ys t) rs =
        some (ys.map (fun y => RunResult.ok (State.Yield y)) ++ [RunResult.ok (State.Complete t)]) := by
  intro ys
  induction ys with
  | nil =>
    intro rs hlen
    match rs, hlen with
    | [r], _ => simp [runTrace, resume_with_mid_nil]
  | cons y ys ih =>
    intro rs hlen
    match rs, hlen with
    | r :: rs', hlen =>
      have hlen' : rs'.length = ys.length + 1 := by simpa using hlen
      simp [runTrace, resume_with_mid_cons, ih rs' hlen']

/-- C1: a coroutine whose computation yields `y1..yN` in order and then
completes with `t`, driven by `N + 1` resumes with arbitrary resume values,
returns `Yield y1, …, Yield yN, Complete t` in order. -/
theorem claim1_yield_sequence {Y T R : Type} (ys : List Y) (t : T) (rs : List R)
    (hlen : rs.length = ys.length + 1) :
    runTrace (Coroutine.new (fun _ => bodyOfList ys t)) rs =
      some (ys.map (fun y => RunResult.ok (State.Yield y)) ++ [RunResult.ok (State.Complete t)]) := by
  match rs, hlen with
  | r :: rs', hlen =>
    cases ys with
    | nil =>
      have : rs' = [] := by simpa using hlen
      subst this
      simp [runTrace, resume_with_new_nil]
    | cons y ys' =>
      have hlen' : rs'.length = ys'.length + 1 := by simpa using hlen
      simp [runTrace, resume_with_new_cons, runTrace_mid t ys' rs' hlen']

/-- Witness for C1: two yields and a completion, three resumes. -/
theorem claim1_witness :
    ([0, 0, 0] : List Nat).length = [1, 2].length + 1 ∧
    runTrace (Coroutine.new (fun _ => bodyOfList [1, 2] 5) : Coroutine Nat Nat Nat) [0, 0, 0] =
      some [.ok (.Yield 1), .ok (.Yield 2), .ok (.Complete 5)] :=
  ⟨by decide, claim1_yield_sequence [1, 2] 5 [0, 0, 0] (by decide)⟩

/-- Body code that reports ready leaves the task in the `finished` state. -/
theorem runBody_ready {Y T R : Type} (b : Body Y T R) :
    ∀ (h : YieldHandle Y R) (t : T) (fs' : FutSt Y T R) (h' : YieldHandle Y R),
      runBody b h = (.ready t, fs', h') → fs' = .finished := by
  induction b with
  | ret t =>
    intro h t' fs' h' heq
    simp [runBody] at heq
    exact heq.2.1.symm
  | yield_ v k ih =>
    intro h t' fs' h' heq
    obtain ⟨hv, hr⟩ := h
    cases hv <;> simp [runBody, YieldNow.poll] at heq
  | discarded v rest ih =>
    intro h t' fs' h' heq
    simp only [runBody] at heq
    exact ih h t' fs' h' heq

/-- Body code that suspends has just filled the yield mailbox. -/
theorem runBody_pending {Y T R : Type} (b : Body Y T R) :
    ∀ (h : YieldHandle Y R) (fs' : FutSt Y T R) (h' : YieldHandle Y R),
      runBody b h = (.pending, fs', h') → ∃ y, h'.value = some y := by
  induction b with
  | ret t =>
    intro h fs' h' heq
    simp [runBody] at heq
  | yield_ v k ih =>
    intro h fs' h' heq
    obtain ⟨hv, hr⟩ := h
    cases hv with
    | none =>
      simp [runBody, YieldNow.poll] at heq
      exact ⟨v, by rw [← heq.2]⟩
    | some w => simp [runBody] at heq
  | discarded v rest ih =>
    intro h fs' h' heq
    simp only [runBody] at heq
    exact ih h fs' h' heq

/-- Body code never panics with `missingResumeValue`: the only panic it can
raise on its own is `doubleYield`. -/
theorem runBody_panic_ne_mrv {Y T R : Type} (b : Body Y T R) :
    ∀ (h : YieldHandle Y R) (p : Panic) (fs' : FutSt Y T R) (h' : YieldHandle Y R),
      runBody b h = (.panicked p, fs', h') → p ≠ .missingResumeValue := by
  induction b with
  | ret t =>
    intro h p fs' h' heq
    simp [runBody] at heq
  | yield_ v k ih =>
    intro h p fs' h' heq
    obtain ⟨hv, hr⟩ := h
    cases hv with
    | none => simp [runBody, YieldNow.poll] at heq
    | some w =>
      simp [runBody] at heq
      simp [← heq.1]
  | discarded v rest ih =>
    intro h p fs' h' heq
    simp only [runBody] at heq
    exact ih h p fs' h' heq

/-- A poll that reports ready leaves the task in the `finished` state. -/
theorem pollTask_ready {Y T R : Type} (fs : FutSt Y T R) (h : YieldHandle Y R)
    (t : T) (fs' : FutSt Y T R) (h' : YieldHandle Y R)
    (heq : pollTask fs h = (.ready t, fs', h')) : fs' = .finished := by
  cases fs with
  | run b => exact runBody_ready b h t fs' h' heq
  | awaitingYield yn k =>
    obtain ⟨fired⟩ := yn
    cases fired with
    | false => simp [pollTask, YieldNow.poll] at heq
    | true =>
      cases hr : h.resume with
      | none => simp [pollTask, YieldNow.poll, hr] at heq
      | some r =>
        simp only [pollTask, YieldNow.poll, hr] at heq
        exact runBody_ready (k r) _ t fs' h' heq
  | finished => simp [pollTask] at heq

/-- A poll that reports pending has either just filled the yield mailbox, or
was the (defensive) first drive of an unfired suspension: then nothing changed
except arming the signal. -/
theorem pollTask_pending {Y T R : Type} (fs : FutSt Y T R) (h : YieldHandle Y R)
    (fs' : FutSt Y T R) (h' : YieldHandle Y R)
    (heq : pollTask fs h = (.pending, fs', h')) :
    (∃ y, h'.value = some y) ∨
      (h' = h ∧ ∃ k, fs = .awaitingYield ⟨false⟩ k ∧ fs' = .awaitingYield ⟨true⟩ k) := by
  cases fs with
  | run b => exact .inl (runBody_pending b h fs' h' heq)
  | awaitingYield yn k =>
    obtain ⟨fired⟩ := yn
    cases fired with
    | false =>
      simp [pollTask, YieldNow.poll] at heq
      exact .inr ⟨heq.2.symm, k, rfl, heq.1.symm⟩
    | true =>
      cases hr : h.resume with
      | none => simp [pollTask, YieldNow.poll, hr] at heq
      | some r =>
        simp only [pollTask, YieldNow.poll, hr] at heq
        exact .inl (runBody_pending (k r) _ fs' h' heq)
  | finished => simp [pollTask] at heq

/-- A poll can only panic with `missingResumeValue` when the task was suspended
at a yield and the resume mailbox was empty. -/
theorem pollTask_mrv {Y T R : Type} (fs : FutSt Y T R) (h : YieldHandle Y R)
    (fs' : FutSt Y T R) (h' : YieldHandle Y R)
    (heq : pollTask fs h = (.panicked .missingResumeValue, fs', h')) :
    h.resume = none ∧ ∃ yn k, fs = .awaitingYield yn k := by
  cases fs with
  | run b => exact absurd rfl (runBody_panic_ne_mrv b h _ fs' h' heq)
  | awaitingYield yn k =>
    obtain ⟨fired⟩ := yn
    cases fired with
    | false => simp [pollTask, YieldNow.poll] at heq
    | true =>
      cases hr : h.resume with
      | none => exact ⟨rfl, ⟨true⟩, k, rfl⟩
      | some r =>
        simp only [pollTask, YieldNow.poll, hr] at heq
        exact absurd rfl (runBody_panic_ne_mrv (k r) _ _ fs' h' heq)
  | finished => simp [pollTask] at heq

/-- From a task suspended at an armed yield, one driver-loop iteration always
settles, so any amount of fuel from one up gives the same answer. -/
theorem driveLoop_true_succ {Y T R : Type} (n : Nat) (k : R → Body Y T R) (h : YieldHandle Y R) :
    driveLoop (n + 1) (.awaitingYield ⟨true⟩ k) h = driveLoop 1 (.awaitingYield ⟨true⟩ k) h := by
  cases hp : pollTask (.awaitingYield ⟨true⟩ k) h with
  | mk p rest =>
    obtain ⟨fs1, h1⟩ := rest
    cases p with
    | ready t => simp [driveLoop, hp]
    | panicked q => simp [driveLoop, hp]
    | pending =>
      cases hv : h1.value with
      | some y => simp [driveLoop, hp, hv]
      | none =>
        rcases pollTask_pending _ _ _ _ hp with ⟨y, hy⟩ | ⟨-, k', hk, -⟩
        · exact absurd hy (by simp [hv])
        · exact absurd hk (by simp)

/-- Fuel-irrelevance of the driver loop: two units of fuel already reach the
fixed point, so the bounded loop agrees with the unbounded Rust loop. -/
theorem driveLoop_fuel {Y T R : Type} (n : Nat) (fs : FutSt Y T R) (h : YieldHandle Y R) :
    driveLoop (n + 2) fs h = driveLoop 2 fs h := by
  cases hp : pollTask fs h with
  | mk p rest =>
    obtain ⟨fs1, h1⟩ := rest
    cases p with
    | ready t => simp [driveLoop, hp]
    | panicked q => simp [driveLoop, hp]
    | pending =>
      cases hv : h1.value with
      | some y => simp [driveLoop, hp, hv]
      | none =>
        rcases pollTask_pending _ _ _ _ hp with ⟨y, hy⟩ | ⟨hh, k, hk, hk'⟩
        · exact absurd hy (by simp [hv])
        · show driveLoop (n + 2) fs h = driveLoop 2 fs h
          rw [show (n + 2) = (n + 1) + 1 from rfl]
          rw [driveLoop, driveLoop, hp]
          simp only [hv]
          subst hk'
          exact driveLoop_true_succ n k h1

/-- The driver loop with fuel two always settles. -/
theorem driveLoop_two_some {Y T R : Type} (fs : FutSt Y T R) (h : YieldHandle Y R) :
    driveLoop 2 fs h ≠ none := by
  cases hp : pollTask fs h with
  | mk p rest =>
    obtain ⟨fs1, h1⟩ := rest
    cases p with
    | ready t => simp [driveLoop, hp]
    | panicked q => simp [driveLoop, hp]
    | pending =>
      cases hv : h1.value with
      | some y => simp [driveLoop, hp, hv]
      | none =>
        rcases pollTask_pending _ _ _ _ hp with ⟨y, hy⟩ | ⟨hh, k, hk, hk'⟩
        · exact absurd hy (by simp [hv])
        · subst hk'
          cases hp2 : pollTask (FutSt.awaitingYield ⟨true⟩ k) h1 with
          | mk p2 rest2 =>
            obtain ⟨fs2, h2⟩ := rest2
            cases p2 with
            | ready t => simp [driveLoop, hp, hv, hp2]
            | panicked q => simp [driveLoop, hp, hv, hp2]
            | pending =>
              cases hv2 : h2.value with
              | some y => simp [driveLoop, hp, hv, hp2, hv2]
              | none =>
                rcases pollTask_pending _ _ _ _ hp2 with ⟨y, hy⟩ | ⟨-, k', hk2, -⟩
                · exact absurd hy (by simp [hv2])
                · exact absurd hk2 (by simp)

/-- Every `resume_with` call settles: the drive loop never runs forever. -/
theorem resume_with_total {Y T R : Type} (co : Coroutine Y T R) (r : R) :
    co.resume_with r ≠ none := by
  obtain ⟨⟨i, ex⟩, h⟩ := co
  cases ex with
  | some fs =>
    simp only [Coroutine.resume_with, ExecutorState.init_or_resume]
    cases hd : driveLoop 2 fs { h with resume := some r } with
    | none => exact absurd hd (driveLoop_two_some _ _)
    | some x => simp
  | none =>
    cases i with
    | none => simp [Coroutine.resume_with, ExecutorState.init_or_resume]
    | some f =>
      simp only [Coroutine.resume_with, ExecutorState.init_or_resume]
      cases hd : driveLoop 2 (.run (f r)) h with
      | none => exact absurd hd (driveLoop_two_some _ _)
      | some x => simp

/-- A drive that returns `Complete` leaves the task in the `finished` state. -/
theorem driveLoop_complete {Y T R : Type} :
    ∀ (n : Nat) (fs : FutSt Y T R) (h : YieldHandle Y R) (t : T) (fs' : FutSt Y T R)
      (h' : YieldHandle Y R),
      driveLoop n fs h = some (.ok (.Complete t), fs', h') → fs' = .finished := by
  intro n
  induction n with
  | zero => intro fs h t fs' h' heq; simp [driveLoop] at heq
  | succ n ih =>
    intro fs h t fs' h' heq
    cases hp : pollTask fs h with
    | mk p rest =>
      obtain ⟨fs1, h1⟩ := rest
      cases p with
      | ready t0 =>
        simp [driveLoop, hp] at heq
        exact heq.2.1 ▸ pollTask_ready fs h t0 fs1 h1 hp
      | panicked q => simp [driveLoop, hp] at heq
      | pending =>
        cases hv : h1.value with
        | some y => simp [driveLoop, hp, hv] at heq
        | none =>
          rw [driveLoop, hp] at heq
          simp only [hv] at heq
          exact ih fs1 h1 t fs' h' heq

/-- A drive that returns `Yield` has just emptied the yield mailbox. -/
theorem driveLoop_yield {Y T R : Type} :
    ∀ (n : Nat) (fs : FutSt Y T R) (h : YieldHandle Y R) (y : Y) (fs' : FutSt Y T R)
      (h' : YieldHandle Y R),
      driveLoop n fs h = some (.ok (.Yield y), fs', h') → h'.value = none := by
  intro n
  induction n with
  | zero => intro fs h y fs' h' heq; simp [driveLoop] at heq
  | succ n ih =>
    intro fs h y fs' h' heq
    cases hp : pollTask fs h with
    | mk p rest =>
      obtain ⟨fs1, h1⟩ := rest
      cases p with
      | ready t0 => simp [driveLoop, hp] at heq
      | panicked q => simp [driveLoop, hp] at heq
      | pending =>
        cases hv : h1.value with
        | some y0 =>
          simp [driveLoop, hp, hv] at heq
          rw [← heq.2.2]
        | none =>
          rw [driveLoop, hp] at heq
          simp only [hv] at heq
          exact ih fs1 h1 y fs' h' heq

/-- Resuming a coroutine whose task is already finished panics with
`resumeAfterCompletion` and changes nothing but the resume mailbox. -/
theorem resume_with_finished {Y T R : Type} (i : Option (R → Body Y T R))
    (h : YieldHandle Y R) (r : R) :
    Coroutine.resume_with ⟨⟨i, some .finished⟩, h⟩ r =
      some (.panicked .resumeAfterCompletion,
        ⟨⟨i, some .finished⟩, { h with resume := some r }⟩) := rfl

/-- Every resume of a finished coroutine panics with `resumeAfterCompletion`,
for the whole remaining trace. -/
theorem runTrace_finished {Y T R : Type} :
    ∀ (rs : List R) (i : Option (R → Body Y T R)) (h : YieldHandle Y R),
      runTrace (⟨⟨i, some .finished⟩, h⟩ : Coroutine Y T R) rs =
        some (List.replicate rs.length (.panicked .resumeAfterCompletion)) := by
  intro rs
  induction rs with
  | nil => intro i h; rfl
  | cons r rs ih =>
    intro i h
    simp [runTrace, resume_with_finished, ih, List.replicate]

/-- C4: once a `resume_with` call has returned `Complete t`, every further
call to `resume_with` (hence also `resume` on the unit specialization, which
is defined as `resume_with ()`) deterministically panics with
`resumeAfterCompletion`. -/
theorem claim4_resume_after_completion {Y T R : Type} (co : Coroutine Y T R) (r : R) (t : T)
    (co' : Coroutine Y T R) (heq : co.resume_with r = some (.ok (.Complete t), co')) :
    ∀ rs : List R, runTrace co' rs =
      some (List.replicate rs.length (.panicked .resumeAfterCompletion)) := by
  intro rs
  obtain ⟨⟨i, ex⟩, h⟩ := co
  cases ex with
  | some fs =>
    simp only [Coroutine.resume_with, ExecutorState.init_or_resume] at heq
    cases hd : driveLoop 2 fs { h with resume := some r } with
    | none => rw [hd] at heq; cases heq
    | some x =>
      obtain ⟨out2, fs2, h2⟩ := x
      rw [hd] at heq
      simp only [Option.some.injEq, Prod.mk.injEq] at heq
      obtain ⟨hout, hco⟩ := heq
      rw [hout] at hd
      have hfin := driveLoop_complete 2 fs _ t fs2 h2 hd
      subst hfin
      rw [← hco]
      exact runTrace_finished rs i h2
  | none =>
    cases i with
    | none =>
      simp [Coroutine.resume_with, ExecutorState.init_or_resume] at heq
    | some f =>
      simp only [Coroutine.resume_with, ExecutorState.init_or_resume] at heq
      cases hd : driveLoop 2 (.run (f r)) h with
      | none => rw [hd] at heq; cases heq
      | some x =>
        obtain ⟨out2, fs2, h2⟩ := x
        rw [hd] at heq
        simp only [Option.some.injEq, Prod.mk.injEq] at heq
        obtain ⟨hout, hco⟩ := heq
        rw [hout] at hd
        have hfin := driveLoop_complete 2 _ _ t fs2 h2 hd
        subst hfin
        rw [← hco]
        exact runTrace_finished rs none h2

/-- Witness for C4: a body that completes immediately, then two further
resumes, both fatal. -/
theorem claim4_witness :
    (Coroutine.new (fun _ => Body.ret 0) : Coroutine Nat Nat Nat).resume_with 0 =
      some (.ok (.Complete 0), ⟨⟨none, some .finished⟩, ⟨none, none⟩⟩) ∧
    runTrace (⟨⟨none, some .finished⟩, ⟨none, none⟩⟩ : Coroutine Nat Nat Nat) [1, 2] =
      some (List.replicate 2 (.panicked .resumeAfterCompletion)) :=
  ⟨rfl,
    claim4_resume_after_completion (Coroutine.new (fun _ => Body.ret 0)) 0 0
      ⟨⟨none, some .finished⟩, ⟨none, none⟩⟩ rfl [1, 2]⟩

/-- The two-fuel drive loop never produces a `missingResumeValue` panic when
either the resume mailbox is full or the task is not suspended at a yield. -/
theorem driveLoop_two_no_mrv {Y T R : Type} (fs : FutSt Y T R) (h : YieldHandle Y R)
    (out : RunResult Y T) (fs' : FutSt Y T R) (h' : YieldHandle Y R)
    (hpre : h.resume ≠ none ∨ ∀ (yn : YieldNow) (k : R → Body Y T R), fs ≠ .awaitingYield yn k)
    (heq : driveLoop 2 fs h = some (out, fs', h')) :
    out ≠ .panicked .missingResumeValue := by
  intro hout
  subst hout
  cases hp : pollTask fs h with
  | mk p rest =>
    obtain ⟨fs1, h1⟩ := rest
    cases p with
    | ready t => simp [driveLoop, hp] at heq
    | panicked q =>
      simp only [driveLoop, hp, Option.some.injEq, Prod.mk.injEq] at heq
      obtain ⟨hq, -⟩ := heq
      rw [show q = Panic.missingResumeValue from by
        injection hq.symm with h1; exact h1.symm] at hp
      obtain ⟨hres, yn, k, hfs⟩ := pollTask_mrv fs h fs1 h1 hp
      rcases hpre with hpre | hpre
      · exact hpre hres
      · exact hpre yn k hfs
    | pending =>
      cases hv : h1.value with
      | some y => simp [driveLoop, hp, hv] at heq
      | none =>
        rcases pollTask_pending _ _ _ _ hp with ⟨y, hy⟩ | ⟨hh, k, hk, hk'⟩
        · exact absurd hy (by simp [hv])
        · have hres : h.resume ≠ none := by
            rcases hpre with hpre | hpre
            · exact hpre
            · exact absurd hk (hpre _ _)
          rw [driveLoop, hp] at heq
          simp only [hv] at heq
          subst hk'
          subst hh
          cases hr : h1.resume with
          | none => exact hres hr
          | some r =>
            cases hp2 : pollTask (.awaitingYield ⟨true⟩ k) h1 with
            | mk p2 rest2 =>
              obtain ⟨fs2, h2⟩ := rest2
              cases p2 with
              | ready t => simp [driveLoop, hp2] at heq
              | panicked q =>
                simp only [driveLoop, hp2, Option.some.injEq, Prod.mk.injEq] at heq
                obtain ⟨hq, -⟩ := heq
                rw [show q = Panic.missingResumeValue from by
                  injection hq.symm with h2; exact h2.symm] at hp2
                obtain ⟨hres2, -⟩ := pollTask_mrv _ _ _ _ hp2
                rw [hres2] at hr
                cases hr
              | pending =>
                cases hv2 : h2.value with
                | some y => simp [driveLoop, hp2, hv2] at heq
                | none =>
                  rcases pollTask_pending _ _ _ _ hp2 with ⟨y, hy⟩ | ⟨-, k', hk2, -⟩
                  · exact absurd hy (by simp [hv2])
                  · exact absurd hk2 (by simp)

/-- C6: under exclusive driving through `resume_with`, the
`missingResumeValue` branch of `yield_` is unreachable — no `resume_with`
call, from any coroutine state whatsoever, can return that panic, because the
driver fills the resume mailbox before every poll of a suspended task. -/
theorem claim6_no_missing_resume_value {Y T R : Type} (co : Coroutine Y T R) (r : R)
    (out : RunResult Y T) (co' : Coroutine Y T R)
    (heq : co.resume_with r = some (out, co')) :
    out ≠ .panicked .missingResumeValue := by
  obtain ⟨⟨i, ex⟩, h⟩ := co
  cases ex with
  | some fs =>
    simp only [Coroutine.resume_with, ExecutorState.init_or_resume] at heq
    cases hd : driveLoop 2 fs { h with resume := some r } with
    | none => rw [hd] at heq; cases heq
    | some x =>
      obtain ⟨out2, fs2, h2⟩ := x
      rw [hd] at heq
      simp only [Option.some.injEq, Prod.mk.injEq] at heq
      exact heq.1 ▸ driveLoop_two_no_mrv fs _ out2 fs2 h2 (.inl (by simp)) hd
  | none =>
    cases i with
    | none =>
      simp only [Coroutine.resume_with, ExecutorState.init_or_resume,
        Option.some.injEq, Prod.mk.injEq] at heq
      rw [← heq.1]
      simp
    | some f =>
      simp only [Coroutine.resume_with, ExecutorState.init_or_resume] at heq
      cases hd : driveLoop 2 (.run (f r)) h with
      | none => rw [hd] at heq; cases heq
      | some x =>
        obtain ⟨out2, fs2, h2⟩ := x
        rw [hd] at heq
        simp only [Option.some.injEq, Prod.mk.injEq] at heq
        exact heq.1 ▸
          driveLoop_two_no_mrv _ _ out2 fs2 h2 (.inr (by intro yn k hc; cases hc)) hd

/-- Witness for C6: a completing resume, whose outcome is indeed not the
`missingResumeValue` panic. -/
theorem claim6_witness :
    (Coroutine.new (fun _ => Body.ret 0) : Coroutine Nat Nat Nat).resume_with 0 =
      some (.ok (.Complete 0), ⟨⟨none, some .finished⟩, ⟨none, none⟩⟩) ∧
    (RunResult.ok (State.Complete 0) : RunResult Nat Nat) ≠ .panicked .missingResumeValue :=
  ⟨rfl,
    claim6_no_missing_resume_value (Coroutine.new (fun _ => Body.ret 0)) 0
      (.ok (.Complete 0)) ⟨⟨none, some .finished⟩, ⟨none, none⟩⟩ rfl⟩

/-- C10: mailbox emptiness at the handoff points. Whenever `resume_with`
returns `Yield y` the yield mailbox of the returned coroutine is empty (the
value was removed, not copied); and when a suspended `yield_` is driven with
the resume mailbox full, the resume value is removed from the mailbox before
the body continues with it — each mailboxed value is delivered exactly once. -/
theorem claim10_mailbox_handoff {Y T R : Type} :
    (∀ (co : Coroutine Y T R) (r : R) (y : Y) (co' : Coroutine Y T R),
      co.resume_with r = some (.ok (.Yield y), co') → co'.handle.value = none) ∧
    (∀ (k : R → Body Y T R) (v : Option Y) (r : R),
      pollTask (.awaitingYield ⟨true⟩ k) ⟨v, some r⟩ = runBody (k r) ⟨v, none⟩) := by
  constructor
  · intro co r y co' heq
    obtain ⟨⟨i, ex⟩, h⟩ := co
    cases ex with
    | some fs =>
      simp only [Coroutine.resume_with, ExecutorState.init_or_resume] at heq
      cases hd : driveLoop 2 fs { h with resume := some r } with
      | none => rw [hd] at heq; cases heq
      | some x =>
        obtain ⟨out2, fs2, h2⟩ := x
        rw [hd] at heq
        simp only [Option.some.injEq, Prod.mk.injEq] at heq
        obtain ⟨hout, hco⟩ := heq
        rw [hout] at hd
        rw [← hco]
        exact driveLoop_yield 2 fs _ y fs2 h2 hd
    | none =>
      cases i with
      | none =>
        simp [Coroutine.resume_with, ExecutorState.init_or_resume] at heq
      | some f =>
        simp only [Coroutine.resume_with, ExecutorState.init_or_resume] at heq
        cases hd : driveLoop 2 (.run (f r)) h with
        | none => rw [hd] at heq; cases heq
        | some x =>
          obtain ⟨out2, fs2, h2⟩ := x
          rw [hd] at heq
          simp only [Option.some.injEq, Prod.mk.injEq] at heq
          obtain ⟨hout, hco⟩ := heq
          rw [hout] at hd
          rw [← hco]
          exact driveLoop_yield 2 _ _ y fs2 h2 hd
  · intro k v r
    rfl

/-- Witness for C10: a yielding resume, after which the yield mailbox is
empty. -/
theorem claim10_witness :
    (Coroutine.new (fun _ => bodyOfList [7] 0) : Coroutine Nat Nat Nat).resume_with 0 =
      some (.ok (.Yield 7), midCoroutine [] 0) ∧
    (midCoroutine [] 0 : Coroutine Nat Nat Nat).handle.value = none :=
  ⟨rfl,
    claim10_mailbox_handoff.1 (Coroutine.new (fun _ => bodyOfList [7] 0)) 0 7
      (midCoroutine [] 0) rfl⟩

/-- Erasing the never-polled `yield_` futures commutes with executing body
code: same poll outcome, same handle, erased task state. -/
theorem erase_runBody {Y T R : Type} (b : Body Y T R) :
    ∀ h : YieldHandle Y R,
      runBody (eraseDiscarded b) h =
        ((runBody b h).1, eraseFutSt (runBody b h).2.1, (runBody b h).2.2) := by
  induction b with
  | ret t => intro h; rfl
  | yield_ v k ih =>
    intro h
    obtain ⟨hv, hr⟩ := h
    cases hv with
    | none => simp [eraseDiscarded, runBody, YieldNow.poll, eraseFutSt]
    | some w => simp [eraseDiscarded, runBody, eraseFutSt]
  | discarded v rest ih =>
    intro h
    simp only [eraseDiscarded, runBody]
    exact ih h

/-- Erasure commutes with one poll of the task. -/
theorem erase_pollTask {Y T R : Type} (fs : FutSt Y T R) (h : YieldHandle Y R) :
    pollTask (eraseFutSt fs) h =
      ((pollTask fs h).1, eraseFutSt (pollTask fs h).2.1, (pollTask fs h).2.2) := by
  cases fs with
  | run b => exact erase_runBody b h
  | awaitingYield yn k =>
    obtain ⟨fired⟩ := yn
    cases fired with
    | false => simp [eraseFutSt, pollTask, YieldNow.poll]
    | true =>
      cases hr : h.resume with
      | none => simp [eraseFutSt, pollTask, YieldNow.poll, hr]
      | some r =>
        simp only [eraseFutSt, pollTask, YieldNow.poll, hr]
        exact erase_runBody (k r) _
  | finished => rfl

/-- Erasure commutes with the driver loop, at every fuel. -/
theorem erase_driveLoop {Y T R : Type} :
    ∀ (n : Nat) (fs : FutSt Y T R) (h : YieldHandle Y R),
      driveLoop n (eraseFutSt fs) h =
        (driveLoop n fs h).map (fun x => (x.1, eraseFutSt x.2.1, x.2.2)) := by
  intro n
  induction n with
  | zero => intro fs h; rfl
  | succ n ih =>
    intro fs h
    cases hp : pollTask fs h with
    | mk p rest =>
      obtain ⟨fs1, h1⟩ := rest
      have hpe : pollTask (eraseFutSt fs) h = (p, eraseFutSt fs1, h1) := by
        rw [erase_pollTask, hp]
      cases p with
      | ready t => simp [driveLoop, hp, hpe]
      | panicked q => simp [driveLoop, hp, hpe]
      | pending =>
        cases hv : h1.value with
        | some y => simp [driveLoop, hp, hpe, hv]
        | none =>
          rw [driveLoop, driveLoop, hp, hpe]
          simp only [hv]
          exact ih fs1 h1

/-- Erasure commutes with a whole `resume_with` call. -/
theorem erase_resume_with {Y T R : Type} (co : Coroutine Y T R) (r : R) :
    (eraseCo co).resume_with r = (co.resume_with r).map (fun x => (x.1, eraseCo x.2)) := by
  obtain ⟨⟨i, ex⟩, h⟩ := co
  cases ex with
  | some fs =>
    simp only [eraseCo, Option.map, Coroutine.resume_with, ExecutorState.init_or_resume]
    rw [erase_driveLoop]
    cases hd : driveLoop 2 fs { h with resume := some r } with
    | none => rfl
    | some x =>
      obtain ⟨out, fs', h'⟩ := x
      simp [eraseCo]
  | none =>
    cases i with
    | none => rfl
    | some f =>
      simp only [eraseCo, Option.map, Coroutine.resume_with, ExecutorState.init_or_resume]
      have : FutSt.run (eraseDiscarded (f r)) = eraseFutSt (.run (f r)) := rfl
      rw [this, erase_driveLoop]
      cases hd : driveLoop 2 (.run (f r)) h with
      | none => rfl
      | some x =>
        obtain ⟨out, fs', h'⟩ := x
        simp [eraseCo]

/-- Erasure does not change the observable trace. -/
theorem erase_runTrace {Y T R : Type} :
    ∀ (rs : List R) (co : Coroutine Y T R), runTrace (eraseCo co) rs = runTrace co rs := by
  intro rs
  induction rs with
  | nil => intro co; rfl
  | cons r rs ih =>
    intro co
    simp only [runTrace, erase_resume_with]
    cases co.resume_with r with
    | none => rfl
    | some x =>
      obtain ⟨out, co'⟩ := x
      simp [ih co']

/-- C9: a `yield_(v)` future that is constructed but never driven (discarded
mid-expression without being awaited) has no observable effect: the trace of
every sequence of resumes is identical to that of the same computation with
all such discarded operations deleted — `v` never appears, and the remaining
yields and the completion are unaffected. -/
theorem claim9_discarded_yield {Y T R : Type} (f : R → Body Y T R) (rs : List R) :
    runTrace (Coroutine.new f) rs =
      runTrace (Coroutine.new (fun r => eraseDiscarded (f r))) rs := by
  have hco : (Coroutine.new (fun r => eraseDiscarded (f r)) : Coroutine Y T R) =
      eraseCo (Coroutine.new f) := rfl
  rw [hco, erase_runTrace]

end AsyncCoroutine
